import Mathlib

/-- Error kind discriminant of a structured remote-service error
(pcserror.Error in the source). -/
inductive ErrType
  | remoteErr
  | netErr
  | otherErr
deriving DecidableEq, Repr

/-- Shallow model of pcserror.Error: the error kind, the remote numeric
code (GetRemoteErrCode) and the message of GetError().Error(). -/
structure PcsError where
  errType : ErrType
  remoteErrCode : Int
  errMsg : List Char
deriving DecidableEq, Repr

/-- Does pattern p occur at the head of s (helper for substring search). -/
def leadsWith : List Char → List Char → Bool
  | [], _ => true
  | _ :: _, [] => false
  | p :: ps, c :: cs => p = c && leadsWith ps cs

/-- strings.Contains: does s contain pat as a contiguous substring. -/
def containsSub (s pat : List Char) : Bool :=
  match s with
  | [] => pat.isEmpty
  | _ :: rest => leadsWith pat s || containsSub rest pat

def payloadTooLargeChars : List Char := "413 Request Entity Too Large".toList

/-- shouldReCreateSuperFile from the source: remote errors (including the
codes 31363 and 31200) are retried, a network error whose message contains
413 Request Entity Too Large is not, everything else is retried. -/
def shouldReCreateSuperFile (e : PcsError) : Bool :=
  match e.errType with
  | .remoteErr =>
    if e.remoteErrCode = 31363 then true
    else if e.remoteErrCode = 31200 then true
    else true
  | .netErr =>
    if containsSub e.errMsg payloadTooLargeChars then false else true
  | .otherErr => true


/-- Outcome status constants of Object.Update (const success/retry/failed). -/
inductive UploadStatus
  | success
  | retry
  | failed
deriving DecidableEq, Repr

/-- Three-attempt retry loop shape used by Object.Update for the empty-file
upload and the single-chunk upload (for i := 0; i < 3; i++ with continue on
error): returns the final error (none on success) and the number of attempts
performed.  The oracle gives attempt i its outcome. -/
def retry3 (oracle : Nat → Option PcsError) : Option PcsError × Nat :=
  match oracle 0 with
  | none => (none, 1)
  | some _ =>
    match oracle 1 with
    | none => (none, 2)
    | some _ =>
      match oracle 2 with
      | none => (none, 3)
      | some e2 => (some e2, 3)

/-- Merge loop of Object.Update (for i := 1; ; i++ over createSuperFileFunc):
on failure, return the error when i has reached 3, otherwise continue only
when shouldReCreateSuperFile says to.  fuel counts the iterations on which a
retry is still permitted (2 at the start, for attempts 1 and 2); i is the
attempt number.  Returns the final error (none on success) and attempts. -/
def createSuperFileLoopAux (oracle : Nat → Option PcsError) : Nat → Nat → Option PcsError × Nat
  | fuel, i =>
    match oracle i with
    | none => (none, i)
    | some e =>
      match fuel with
      | 0 => (some e, i)
      | fuel' + 1 =>
        if shouldReCreateSuperFile e then createSuperFileLoopAux oracle fuel' (i + 1)
        else (some e, i)

/-- Merge loop entry point: attempts start at i = 1 with two retries allowed. -/
def createSuperFileLoop (oracle : Nat → Option PcsError) : Option PcsError × Nat :=
  createSuperFileLoopAux oracle 2 1

/-- One HTTP attempt of a chunk uploader, as seen by the retry loop: the
checksum and error returned through baiduPcs.UploadTmpFile, and the HTTP
response status code when a response arrived (none on transport error). -/
structure ChunkAttempt where
  checksum : String
  pcsErr : Option PcsError
  respStatus : Option Nat
deriving DecidableEq, Repr

/-- The unrecoverable HTTP status codes of the chunk uploader (400, 401,
403, 413 set status = failed; all other codes leave status unchanged). -/
def fatalCode (c : Nat) : Bool :=
  c = 400 || c = 401 || c = 403 || c = 413

/-- status update performed inside uploadTmpFileFunc: only the fatal codes
assign status = failed; any other response leaves status as it was. -/
def statusAfter (st : UploadStatus) (a : ChunkAttempt) : UploadStatus :=
  match a.respStatus with
  | some c => if fatalCode c then .failed else st
  | none => st

/-- Result of one chunk uploader goroutine of the multi-chunk path of
Object.Update: a successful fragment upload writes the checksum; a fatal
status or exhaustion of the 5 attempts calls cancel. -/
inductive ChunkResult
  | ok (checksum : String)
  | cancelFatal (e : PcsError)
  | cancelExhausted (e : Option PcsError)
deriving DecidableEq, Repr

/-- Retry loop of a chunk uploader goroutine (for i := 0; i < 5; i++):
fuel is the number of attempts left, i the next attempt index, st the
sticky status variable, lastErr the pcsErr of the previous attempt.
Returns the result and the number of attempts performed. -/
def chunkLoopAux (oracle : Nat → ChunkAttempt) : Nat → Nat → UploadStatus → Option PcsError → ChunkResult × Nat
  | 0, i, _, lastErr => (.cancelExhausted lastErr, i)
  | fuel + 1, i, st, _ =>
    let a := oracle i
    let st1 := statusAfter st a
    match a.pcsErr with
    | some e =>
      if st1 = .failed then (.cancelFatal e, i + 1)
      else chunkLoopAux oracle fuel (i + 1) st1 (some e)
    | none => (.ok a.checksum, i + 1)

/-- Chunk uploader goroutine: 5 attempts, initial status retry. -/
def chunkLoop (oracle : Nat → ChunkAttempt) : ChunkResult × Nat :=
  chunkLoopAux oracle 5 0 .retry none

/-- Serialized effect on the named result returnErr of a sequence of calls
to the cancel closure of Object.Update: cancel(err) overwrites returnErr
whenever err is non-nil and leaves it unchanged when err is nil. -/
def cancelFold (calls : List (Option PcsError)) : Option PcsError :=
  calls.foldl (fun acc e => match e with | some x => some x | none => acc) none


/-- Fueled bit-length helper: number of binary digits of n (0 for 0). -/
def bitLenAux : Nat → Nat → Nat
  | 0, _ => 0
  | fuel + 1, n => if n = 0 then 0 else bitLenAux fuel (n / 2) + 1

/-- Bit length of a natural number: bitLen n = k iff 2 to the k-1 le n lt 2 to the k. -/
def bitLen (n : Nat) : Nat := bitLenAux n n

/-- Rounding of the 53-bit significand used by float64: given the quotient
m with remainder r over divisor den (so the exact scaled value is
m + r / den with 2 * r compared against den), round to nearest with ties
to even, as the int64 to float64 conversion and float64 division do. -/
def roundHalfEven (m r den : Nat) : Nat :=
  if den < 2 * r then m + 1
  else if 2 * r < den then m
  else if m % 2 = 0 then m else m + 1

/-- Go conversion float64(n) of a non-negative int64 n: exact below 2^53,
otherwise round the 53-bit significand to nearest, ties to even.  The
result of this conversion is always a (possibly large) integer. -/
def f64ofNat (n : Nat) : Nat :=
  if n < 2 ^ 53 then n
  else
    let k := bitLen n - 53
    roundHalfEven (n / 2 ^ k) (n % 2 ^ k) (2 ^ k) * 2 ^ k

/-- IEEE-754 double division x / y of two integral float64 values (as
produced by f64ofNat): the exact rational quotient rounded to a 53-bit
significand, nearest, ties to even.  The result is returned as a pair
(m, s) representing the value m * 2^s.  The exponent e is the unique
integer with 2^e le x/y lt 2^(e+1); s = e - 52. -/
def rdiv (x y : Nat) : Nat × Int :=
  if x = 0 ∨ y = 0 then (0, 0)
  else
    let la := bitLen x - 1
    let lb := bitLen y - 1
    -- greatest e with 2^e le x/y; e = la - lb or la - lb - 1
    let e : Int := if y * 2 ^ la ≤ x * 2 ^ lb then (la : Int) - lb else (la : Int) - lb - 1
    let t : Int := 52 - e
    let num := if 0 ≤ t then x * 2 ^ t.toNat else x
    let den := if 0 ≤ t then y else y * 2 ^ (-t).toNat
    (roundHalfEven (num / den) (num % den) den, e - 52)

/-- Go int(math.Ceil(q)) for a non-negative float64 value q given as a
significand-exponent pair (m, s) with value m * 2^s: the exact ceiling
(an integral float64, and the int conversion of it). -/
def goCeil (p : Nat × Int) : Nat :=
  if 0 ≤ p.2 then p.1 * 2 ^ p.2.toNat
  else (p.1 + 2 ^ (-p.2).toNat - 1) / 2 ^ (-p.2).toNat

/-- Chunk count computed by Object.Update:
int(math.Ceil(float64(size) / float64(chunkSize))) with float64 semantics.
All values arising here are non-negative, so the int conversion is exact
and the result is modelled as a natural number. -/
def chunkCountGo (size chunkSize : Nat) : Nat :=
  goCeil (rdiv (f64ofNat size) (f64ofNat chunkSize))

/-- Fueled iteration count of the upload loop of Object.Update
(for remaining > 0 with remaining -= min(remaining, chunkSize)). -/
def loopItersAux (chunkSize : Nat) : Nat → Nat → Nat
  | 0, _ => 0
  | fuel + 1, r => if r = 0 then 0 else loopItersAux chunkSize fuel (r - min r chunkSize) + 1

/-- Number of iterations of the upload loop of Object.Update, that is the
number of chunks actually dispatched (and of checksum indexes written). -/
def loopIters (chunkSize r : Nat) : Nat := loopItersAux chunkSize r r


/-- Errors Object.Update can return: a structured pcserror, the canceled
context error, or the io error of reading the input stream (its concrete
value is irrelevant to the control flow and is abstracted). -/
inductive GoErr
  | pcs (e : PcsError)
  | canceled
  | ioRead
deriving DecidableEq, Repr

/-- Remote operations Object.Update performs, in the order performed (used
to state which protocol steps a path does and does not invoke). -/
inductive Op
  | emptyFileOp
  | tmpChunkOp
  | superFileOp
  | wholeFileOp
deriving DecidableEq, Repr

/-- Which of the three paths of Object.Update runs, decided at its head:
size == 0, chunkCount == 1, or the general multi-chunk path. -/
inductive PathKind
  | zeroSize
  | singleChunk
  | multiChunk
deriving DecidableEq, Repr

/-- Path dispatch at the head of Object.Update. -/
def updatePathKind (size chunkSize : Nat) : PathKind :=
  if size = 0 then .zeroSize
  else if chunkCountGo size chunkSize = 1 then .singleChunk
  else .multiChunk

/-- Summary of one run of a non-concurrent path of Object.Update. -/
structure PathSummary where
  result : Option GoErr
  attempts : Nat
  acquired : Nat
  released : Nat
  ops : List Op
  recordedSize : Option Nat
deriving DecidableEq, Repr

/-- The size == 0 path of Object.Update: up to 3 attempts of the empty-file
upload (baiduPcs.Upload of a zero-length payload); onSuccess records the
size; no slot is touched and no chunk or merge call is made. -/
def updateZeroSize (oracle : Nat → Option PcsError) : PathSummary :=
  match retry3 oracle with
  | (none, k) => ⟨none, k, 0, 0, List.replicate k .emptyFileOp, some 0⟩
  | (some e, k) => ⟨some (.pcs e), k, 0, 0, List.replicate k .emptyFileOp, none⟩

/-- The chunkCount == 1 path of Object.Update: select a free slot (or the
ctx.Done branch when the caller has cancelled), fill the buffer from the
input, upload the whole object with baiduPcs.Upload, up to 3 attempts; the
deferred send on the done channel releases the slot on every exit after the
acquisition.  ctxCancelled models the caller context already cancelled at
the select (the branch that returns ctx.Err() without consuming a token);
fillFails models the bufBytes.write error. -/
def updateSingleChunk (ctxCancelled : Bool) (fillFails : Bool)
    (oracle : Nat → Option PcsError) (size : Nat) : PathSummary :=
  if ctxCancelled then ⟨some .canceled, 0, 0, 0, [], none⟩
  else if fillFails then ⟨some .ioRead, 0, 1, 1, [], none⟩
  else
    match retry3 oracle with
    | (none, k) => ⟨none, k, 1, 1, List.replicate k .wholeFileOp, some size⟩
    | (some e, k) => ⟨some (.pcs e), k, 1, 1, List.replicate k .wholeFileOp, none⟩


/-- Result of the placeholder goroutine of the multi-chunk path: success
after at most 3 attempts of createEmptyFileFunc, or cancel(pcsErr) when all
3 attempts failed. -/
inductive PhResult
  | okPh
  | cancelWith (e : PcsError)
deriving DecidableEq, Repr

/-- Placeholder goroutine of the multi-chunk path of Object.Update: run the
3-attempt empty-file loop; on exhaustion report the last error to cancel. -/
def placeholderGoroutine (oracle : Nat → Option PcsError) : PhResult × Nat :=
  match retry3 oracle with
  | (none, k) => (.okPh, k)
  | (some e, k) => (.cancelWith e, k)

/-- Observable events of a multi-chunk Object.Update run. -/
inductive Ev
  | phOk
  | phFailed
  | chunkDispatched (idx : Nat)
  | chunkDone (idx : Nat)
  | mergeCalled
deriving DecidableEq, Repr

/-- Result of an Object.Update run.  errRes carries the value of the named
return variable returnErr at a bare return statement (possibly none). -/
inductive UpdResult
  | okRes (size : Nat)
  | errRes (e : Option GoErr)
deriving DecidableEq, Repr

/-- Inputs of one multi-chunk Object.Update run: the configuration and the
oracles giving each remote call its outcome.  fillFails idx is the outcome
of bufBytes.write for chunk idx; chunkOracle idx is the attempt oracle of
the chunk idx uploader goroutine; phOracle and mergeOracle drive the
placeholder and createSuperFile loops. -/
structure UpdCfg where
  threadCount : Nat
  chunkSize : Nat
  size : Nat
  fillFails : Nat → Bool
  chunkOracle : Nat → Nat → ChunkAttempt
  phOracle : Nat → Option PcsError
  mergeOracle : Nat → Option PcsError

/-- State of a multi-chunk Object.Update run.  tokens models, per buffer
slot, whether its done channel currently holds the availability token;
acquired and released count the token receives and sends; cancelRequested
models cancelCtx (set by the cancel closure) and allCancelled models
allCancelCtx (set by the monitor goroutine); running lists the dispatched
chunk goroutines (slot, chunk index) that have not completed yet. -/
structure UpdState where
  tokens : List Bool
  acquired : Nat
  released : Nat
  cancelRequested : Bool
  allCancelled : Bool
  returnErr : Option GoErr
  remaining : Nat
  chunkIndex : Nat
  checksums : List (Option String)
  phDone : Bool
  running : List (Nat × Nat)
  events : List Ev
  finished : Option UpdResult
deriving DecidableEq, Repr

/-- Initial state of a multi-chunk run: all slots available (their done
channels were given one token at pool creation), checksums allocated with
chunkCountGo entries, the placeholder goroutine launched but not yet run. -/
def updInit (cfg : UpdCfg) : UpdState :=
  { tokens := List.replicate cfg.threadCount true
    acquired := 0
    released := 0
    cancelRequested := false
    allCancelled := false
    returnErr := none
    remaining := cfg.size
    chunkIndex := 0
    checksums := List.replicate (chunkCountGo cfg.size cfg.chunkSize) none
    phDone := false
    running := []
    events := []
    finished := none }

/-- Effect of the cancel closure of Object.Update: overwrite returnErr when
the reported error is non-nil, then cancel cancelCtx. -/
def cancelEff (s : UpdState) (e : Option GoErr) : UpdState :=
  { s with returnErr := match e with | some x => some x | none => s.returnErr
           cancelRequested := true }

/-- Monitor goroutine of Object.Update: once cancelCtx is cancelled it
cancels allCancelCtx (the channel the select of the upload loop watches). -/
def monitorStep (s : UpdState) : UpdState :=
  if s.cancelRequested && !s.allCancelled then { s with allCancelled := true } else s

/-- Run of the placeholder goroutine (as one atomic scheduled event). -/
def phStep (cfg : UpdCfg) (s : UpdState) : UpdState :=
  if s.phDone then s
  else
    match placeholderGoroutine cfg.phOracle with
    | (.okPh, _) => { s with phDone := true, events := s.events ++ [.phOk] }
    | (.cancelWith e, _) =>
      { cancelEff s (some (.pcs e)) with phDone := true, events := s.events ++ [.phFailed] }

/-- Completion of a dispatched chunk uploader goroutine (one atomic
scheduled event): run its 5-attempt loop; on success write the checksum at
its chunk index, otherwise call cancel; the deferred statements then send
the token back on the done channel of the slot it used. -/
def chunkDoneEff (cfg : UpdCfg) (s : UpdState) (slot idx : Nat) : UpdState :=
  let s1 :=
    match (chunkLoop (cfg.chunkOracle idx)).1 with
    | .ok cs => { s with checksums := s.checksums.set idx (some cs) }
    | .cancelFatal e => cancelEff s (some (.pcs e))
    | .cancelExhausted e => cancelEff s (e.map .pcs)
  { s1 with running := s1.running.filter (fun p => p.2 ≠ idx)
            released := s1.released + 1
            tokens := s1.tokens.set slot true
            events := s1.events ++ [.chunkDone idx] }

/-- Scheduled run of a dispatched chunk goroutine, identified by chunk
index; a no-op if no such goroutine is in flight. -/
def runChunkStep (cfg : UpdCfg) (s : UpdState) (idx : Nat) : UpdState :=
  match s.running.find? (fun p => p.2 = idx) with
  | some p => chunkDoneEff cfg s p.1 idx
  | none => s

/-- One step of the orchestrator of the multi-chunk path.  At the loop head
(remaining > 0) the select fires: choice = some i receives the token of
slot i (enabled only when that done channel holds one), choice = none takes
the allCancelCtx.Done branch (enabled only once allCancelCtx is cancelled).
After the select the code checks allCancelCtx.Err(): if cancelled it does a
bare return, without re-sending a token it may just have consumed.
Otherwise it fills the buffer (on a write error the token is re-sent and
the error returned) and dispatches the chunk uploader goroutine.  Once
remaining = 0 the orchestrator is at wg.Wait, which needs every dispatched
goroutine and the placeholder goroutine to have finished; then a cancelled
allCancelCtx means a bare return, else the merge loop runs and onSuccess
finishes the update. -/
def orchStep (cfg : UpdCfg) (s : UpdState) (choice : Option Nat) : UpdState :=
  if s.finished.isSome then s
  else if 0 < s.remaining then
    match choice with
    | some i =>
      if s.tokens.getD i false then
        let s0 := { s with tokens := s.tokens.set i false, acquired := s.acquired + 1 }
        if s0.allCancelled then { s0 with finished := some (.errRes s0.returnErr) }
        else if cfg.fillFails s.chunkIndex then
          { s0 with tokens := s0.tokens.set i true
                    released := s0.released + 1
                    finished := some (.errRes (some .ioRead)) }
        else
          { s0 with running := s0.running ++ [(i, s.chunkIndex)]
                    remaining := s.remaining - min s.remaining cfg.chunkSize
                    chunkIndex := s.chunkIndex + 1
                    events := s0.events ++ [.chunkDispatched s.chunkIndex] }
      else s
    | none =>
      if s.allCancelled then { s with finished := some (.errRes s.returnErr) } else s
  else
    if s.running.isEmpty && s.phDone then
      if s.allCancelled then { s with finished := some (.errRes s.returnErr) }
      else
        match createSuperFileLoop cfg.mergeOracle with
        | (some e, _) =>
          { s with events := s.events ++ [.mergeCalled]
                   finished := some (.errRes (some (.pcs e))) }
        | (none, _) =>
          { s with events := s.events ++ [.mergeCalled]
                   finished := some (.okRes cfg.size) }
    else s

/-- A scheduling decision of a multi-chunk run: one orchestrator step with
its select choice, completion of a chunk goroutine, the placeholder
goroutine run, or the monitor goroutine propagating the cancellation. -/
inductive Act
  | orch (choice : Option Nat)
  | runChunk (idx : Nat)
  | runPh
  | monitor
deriving DecidableEq, Repr

/-- One scheduled step of a multi-chunk Object.Update run. -/
def updStep (cfg : UpdCfg) (s : UpdState) : Act → UpdState
  | .orch choice => orchStep cfg s choice
  | .runChunk idx => runChunkStep cfg s idx
  | .runPh => phStep cfg s
  | .monitor => monitorStep s

/-- A multi-chunk Object.Update run under a given schedule. -/
def updRun (cfg : UpdCfg) (sched : List Act) : UpdState :=
  sched.foldl (updStep cfg) (updInit cfg)

/-- A sample fatal remote error used in concrete runs. -/
def errA : PcsError := ⟨.remoteErr, 31064, "errA".toList⟩

/-- A second, distinct sample error. -/
def errB : PcsError := ⟨.otherErr, 0, "errB".toList⟩

/-- A sample error of the placeholder upload. -/
def errPh : PcsError := ⟨.netErr, 0, "empty file upload failed".toList⟩

/-- Concrete multi-chunk configuration: one slot, two chunks of one byte,
chunk 0 fails fatally (HTTP 400) on its first attempt, the placeholder and
merge succeed. -/
def cfgLeak : UpdCfg :=
  { threadCount := 1
    chunkSize := 1
    size := 2
    fillFails := fun _ => false
    chunkOracle := fun _ _ => ⟨"", some errA, some 400⟩
    phOracle := fun _ => none
    mergeOracle := fun _ => none }

/-- Schedule of the slot-leak run: placeholder succeeds, chunk 0 is
dispatched and fails fatally (returning its token and cancelling), the
monitor propagates the cancellation, then the select of the orchestrator
picks the freed slot channel (both it and allCancelCtx.Done are ready) and
the post-select cancellation check returns without re-sending the token. -/
def schedLeak : List Act := [.runPh, .orch (some 0), .runChunk 0, .monitor, .orch (some 0)]

/-- Concrete multi-chunk configuration: one slot, two chunks, chunk 0
succeeds immediately, every placeholder attempt fails. -/
def cfgPh : UpdCfg :=
  { threadCount := 1
    chunkSize := 1
    size := 2
    fillFails := fun _ => false
    chunkOracle := fun _ _ => ⟨"c0", none, some 200⟩
    phOracle := fun _ => some errPh
    mergeOracle := fun _ => none }

/-- Schedule where chunk 0 is dispatched and completes before the
placeholder goroutine has run at all; the placeholder then exhausts its
3 attempts, cancels the job, and the run ends with its error. -/
def schedPh : List Act := [.orch (some 0), .runChunk 0, .runPh, .monitor, .orch none]

/-- Is an event a placeholder completion. -/
def isPhEv : Ev → Bool
  | .phOk => true
  | .phFailed => true
  | _ => false

/-- Is an event a chunk dispatch. -/
def isDispatchEv : Ev → Bool
  | .chunkDispatched _ => true
  | _ => false

/-- Does the placeholder step complete before any chunk dispatch in a
trace (vacuously true when no chunk is ever dispatched). -/
def phBeforeDispatch (evs : List Ev) : Bool :=
  match evs.findIdx? isPhEv, evs.findIdx? isDispatchEv with
  | _, none => true
  | none, some _ => false
  | some a, some b => a < b


/-- ringBuffer of baidu.go: a fixed slice of timestamps with front and rear
cursors.  Timestamps are modelled as integers (nanoseconds). -/
structure RingBuffer where
  data : List Int
  length : Nat
  front : Nat
  rear : Nat
deriving DecidableEq, Repr

/-- ringBuffer.init: allocate the slice (zero timestamps) of the given length. -/
def rbInit (len : Nat) : RingBuffer := ⟨List.replicate len 0, len, 0, 0⟩

/-- ringBuffer.len: rear - front, wrapped by adding length when negative. -/
def rbLen (r : RingBuffer) : Int :=
  let l : Int := (r.rear : Int) - (r.front : Int)
  if l < 0 then l + r.length else l

/-- ringBuffer.next, exactly as written in the source: it returns 0 when
the index equals the length and otherwise returns the index UNCHANGED. -/
def rbNext (r : RingBuffer) (i : Nat) : Nat :=
  if i = r.length then 0 else i

/-- ringBuffer.enqueue: write at rear, advance rear with next. -/
def rbEnqueue (r : RingBuffer) (t : Int) : RingBuffer :=
  { r with data := r.data.set r.rear t, rear := rbNext r r.rear }

/-- ringBuffer.dequeue: advance front with next. -/
def rbDequeue (r : RingBuffer) : RingBuffer :=
  { r with front := rbNext r r.front }

/-- The eviction loop at the end of rateControl.fail: drop front entries
older than 6 intervals until the buffer is empty or a fresh entry is seen.
The Go loop is unbounded; fuel bounds the modelled iterations (any
reachable run exits at once since front always equals rear). -/
def rcEvict (now interval : Int) : Nat → RingBuffer → RingBuffer
  | 0, r => r
  | fuel + 1, r =>
    if r.front = r.rear then r
    else if interval * 6 < now - r.data.getD r.front 0 then rcEvict now interval fuel (rbDequeue r)
    else r

/-- rateControl: the failure window and the tick interval. -/
structure RateControl where
  failures : RingBuffer
  interval : Int
deriving DecidableEq, Repr

/-- rateControl.init with window capacity 6. -/
def rcInit (interval : Int) : RateControl := ⟨rbInit 6, interval⟩

/-- rateControl.fail at timestamp now: enqueue the failure; when the window
holds at least 5 entries, sleep 10 seconds (holding the write lock that
blocks wait) when now minus the front entry exceeds 6 intervals, then
evict stale entries using the re-read clock nowAfter.  Returns the new
state and whether the cooldown sleep happened. -/
def rcFail (c : RateControl) (now nowAfter : Int) : RateControl × Bool :=
  let fs := rbEnqueue c.failures now
  if 5 ≤ rbLen fs then
    let slept := if c.interval * 6 < now - fs.data.getD fs.front 0 then true else false
    let fs2 := rcEvict nowAfter c.interval (fs.length + 1) fs
    ({ c with failures := fs2 }, slept)
  else ({ c with failures := fs }, false)

/-- A sequence of rateControl.fail calls; counts how many slept. -/
def rcFailSeq (c : RateControl) : List Int → RateControl × Nat
  | [] => (c, 0)
  | t :: ts =>
    let (c1, slept) := rcFail c t t
    let (c2, n) := rcFailSeq c1 ts
    (c2, (if slept then 1 else 0) + n)


/-- Model of a BufBytes slot as created by Fs.newBufBytes: the capacity of
its byte buffer (len(b)) and whether its done channel holds the one
availability token (newBufBytes sends one token at creation). -/
structure BufBytesM where
  cap : Nat
  token : Bool
deriving DecidableEq, Repr

/-- The configuration options of one Fs instance that feed the pool. -/
structure FsOptions where
  maxUploadThreadCount : Nat
  uploadChunkSize : Nat
deriving DecidableEq, Repr

/-- Fs.newBufBytes: a slot with a buffer of UploadChunkSize bytes and one
token already sent on its done channel. -/
def newBufBytes (opt : FsOptions) : BufBytesM := ⟨opt.uploadChunkSize, true⟩

/-- Fs.newBufBytesSlice: count slots created by newBufBytes. -/
def newBufBytesSlice (opt : FsOptions) (count : Nat) : List BufBytesM :=
  List.replicate count (newBufBytes opt)

/-- The pool assignment in NewFs: under the lock, allocate the global
uploadBufBytesSlice from this instance configuration only when the slice
is empty, otherwise leave it untouched. -/
def newFsPool (pool : List BufBytesM) (opt : FsOptions) : List BufBytesM :=
  if pool.length = 0 then newBufBytesSlice opt opt.maxUploadThreadCount else pool

/-- An attempt whose classification is retryable: a non-nil error together
with a response status that is not one of the fatal codes (or no response
at all, the transport-error case). -/
def RetryableAttempt (a : ChunkAttempt) : Prop :=
  a.pcsErr.isSome = true ∧ ∀ c, a.respStatus = some c → fatalCode c = false

/-- An attempt whose classification is fatal: a non-nil error together with
a response whose status is one of 400, 401, 403, 413. -/
def FatalAttempt (a : ChunkAttempt) : Prop :=
  a.pcsErr.isSome = true ∧ ∃ c, a.respStatus = some c ∧ fatalCode c = true

/-- Does a chunk uploader result call the cancel closure (cancelling the
whole upload job). -/
def isCancelResult : ChunkResult → Bool
  | .ok _ => false
  | .cancelFatal _ => true
  | .cancelExhausted _ => true

/-- A concrete retryable attempt (HTTP 500 with an error). -/
def retryAttemptW : ChunkAttempt := ⟨"", some errB, some 500⟩

/-- A concrete fatal attempt (HTTP 400 with an error). -/
def fatalAttemptW : ChunkAttempt := ⟨"", some errA, some 400⟩

/-- A configuration whose chunk uploads always fail retryably. -/
def cfgRetryW : UpdCfg := { cfgLeak with chunkOracle := fun _ _ => retryAttemptW }

/-- The machine state right after dispatching chunk 0 in the cfgLeak run. -/
def sRunningW : UpdState := updRun cfgLeak [.orch (some 0)]

/-- A concrete chunk-state-expired merge error (remote code 31363). -/
def e31363W : PcsError := ⟨.remoteErr, 31363, []⟩

/-- A concrete payload-too-large merge error (413 network error). -/
def e413W : PcsError := ⟨.netErr, 0, payloadTooLargeChars⟩

/-- bitLenAux of zero is zero for any fuel. -/
theorem bitLenAux_zero : ∀ fuel, bitLenAux fuel 0 = 0
  | 0 => rfl
  | _ + 1 => by simp [bitLenAux]

/-- Bracket property of the fueled bit length. -/
theorem bitLenAux_bracket :
    ∀ fuel n, n ≤ fuel → 1 ≤ n →
      2 ^ (bitLenAux fuel n - 1) ≤ n ∧ n < 2 ^ bitLenAux fuel n := by
  intro fuel
  induction fuel with
  | zero => intro n hle hge; omega
  | succ f ih =>
    intro n hle hge
    have hne : n ≠ 0 := by omega
    rw [bitLenAux, if_neg hne]
    by_cases h1 : n = 1
    · subst h1
      simp [bitLenAux_zero]
    · have h2 : 2 ≤ n := by omega
      have hdiv1 : 1 ≤ n / 2 := by omega
      have hdivf : n / 2 ≤ f := by
        have := Nat.div_lt_self (by omega : 0 < n) (by omega : 1 < 2)
        omega
      obtain ⟨hlo, hhi⟩ := ih (n / 2) hdivf hdiv1
      set L := bitLenAux f (n / 2) with hL
      have hLpos : 1 ≤ L := by
        by_contra hc
        have : L = 0 := by omega
        rw [this] at hhi
        simp at hhi
        omega
      have hpow1 : 2 ^ L = 2 * 2 ^ (L - 1) := by
        rw [← pow_succ']
        congr 1
        omega
      have hpow2 : 2 ^ (L + 1) = 2 * 2 ^ L := by
        rw [← pow_succ']
      constructor
      · have : L + 1 - 1 = L := by omega
        rw [this]
        omega
      · omega

/-- Bracket property of bitLen: for positive n the bit length l satisfies
2^(l-1) le n lt 2^l. -/
theorem bitLen_bracket (n : Nat) (h : 1 ≤ n) :
    2 ^ (bitLen n - 1) ≤ n ∧ n < 2 ^ bitLen n :=
  bitLenAux_bracket n n le_rfl h

/-- bitLen is positive on positive numbers. -/
theorem bitLen_pos (n : Nat) (h : 1 ≤ n) : 1 ≤ bitLen n := by
  by_contra hc
  obtain ⟨_, hhi⟩ := bitLen_bracket n h
  have : bitLen n = 0 := by omega
  rw [this] at hhi
  simp at hhi
  omega

/-- bitLen is monotone on positive numbers. -/
theorem bitLen_mono (m n : Nat) (hm : 1 ≤ m) (hmn : m ≤ n) : bitLen m ≤ bitLen n := by
  by_contra hc
  push_neg at hc
  obtain ⟨hml, _⟩ := bitLen_bracket m hm
  obtain ⟨_, hnh⟩ := bitLen_bracket n (by omega)
  have hle : bitLen n ≤ bitLen m - 1 := by omega
  have : (2 : Nat) ^ bitLen n ≤ 2 ^ (bitLen m - 1) :=
    Nat.pow_le_pow_right (by omega) hle
  omega

/-- roundHalfEven never rounds below the quotient nor above it plus one. -/
theorem roundHalfEven_bounds (m r den : Nat) :
    m ≤ roundHalfEven m r den ∧ roundHalfEven m r den ≤ m + 1 := by
  unfold roundHalfEven
  split_ifs <;> omega

/-- roundHalfEven is monotone in the remainder. -/
theorem roundHalfEven_mono (m den r1 r2 : Nat) (h : r1 ≤ r2) :
    roundHalfEven m r1 den ≤ roundHalfEven m r2 den := by
  unfold roundHalfEven
  split_ifs <;> omega

/-- Division value of a ceiling expression: for a numerator between den
and 2 * den - 1 the quotient is one. -/
theorem div_eq_one_of_between (a den : Nat) (h0 : 0 < den) (h1 : den ≤ a) (h2 : a < 2 * den) :
    a / den = 1 := by
  have := Nat.div_eq_of_lt_le (by omega : 1 * den ≤ a) (by omega : a < (1 + 1) * den)
  simpa using this

/-- For n at least 2^53 the conversion keeps the magnitude: writing
k = bitLen n - 53, the rounded significand lies in [2^52, 2^53]. -/
theorem f64ofNat_large (n : Nat) (h : 2 ^ 53 ≤ n) :
    f64ofNat n = roundHalfEven (n / 2 ^ (bitLen n - 53)) (n % 2 ^ (bitLen n - 53)) (2 ^ (bitLen n - 53)) * 2 ^ (bitLen n - 53) ∧
    2 ^ 52 ≤ n / 2 ^ (bitLen n - 53) ∧
    n / 2 ^ (bitLen n - 53) < 2 ^ 53 ∧
    54 ≤ bitLen n := by
  have hn1 : 1 ≤ n := by
    have : (0 : Nat) < 2 ^ 53 := by positivity
    omega
  obtain ⟨hlo, hhi⟩ := bitLen_bracket n hn1
  have hbl : 54 ≤ bitLen n := by
    by_contra hc
    push_neg at hc
    have : (2 : Nat) ^ bitLen n ≤ 2 ^ 53 := Nat.pow_le_pow_right (by omega) (by omega)
    omega
  refine ⟨?_, ?_, ?_, hbl⟩
  · rw [f64ofNat, if_neg (by omega)]
  · have heq : bitLen n - 1 = (bitLen n - 53) + 52 := by omega
    rw [heq, pow_add] at hlo
    exact (Nat.le_div_iff_mul_le (pow_pos (by omega : (0 : Nat) < 2) _)).mpr (by omega)
  · have heq : bitLen n = (bitLen n - 53) + 53 := by omega
    rw [heq, pow_add] at hhi
    exact Nat.div_lt_of_lt_mul (by omega)

/-- float64 conversion of a positive number is positive. -/
theorem f64ofNat_pos (n : Nat) (h : 1 ≤ n) : 1 ≤ f64ofNat n := by
  by_cases hs : n < 2 ^ 53
  · rw [f64ofNat, if_pos hs]
    omega
  · obtain ⟨heq, hm1, _, _⟩ := f64ofNat_large n (by omega)
    rw [heq]
    have h1 : 1 ≤ roundHalfEven (n / 2 ^ (bitLen n - 53)) (n % 2 ^ (bitLen n - 53)) (2 ^ (bitLen n - 53)) := by
      have := roundHalfEven_bounds (n / 2 ^ (bitLen n - 53)) (n % 2 ^ (bitLen n - 53)) (2 ^ (bitLen n - 53))
      have h52 : (1 : Nat) ≤ 2 ^ 52 := Nat.one_le_two_pow
      omega
    have h2 : (1 : Nat) ≤ 2 ^ (bitLen n - 53) := Nat.one_le_two_pow
    calc 1 = 1 * 1 := by omega
    _ ≤ _ := Nat.mul_le_mul h1 h2

/-- float64 conversion is monotone. -/
theorem f64ofNat_mono (m n : Nat) (h : m ≤ n) : f64ofNat m ≤ f64ofNat n := by
  by_cases hm : m < 2 ^ 53
  · by_cases hn : n < 2 ^ 53
    · rw [f64ofNat, if_pos hm, f64ofNat, if_pos hn]
      exact h
    · rw [f64ofNat, if_pos hm]
      obtain ⟨heq, hm1, _, _⟩ := f64ofNat_large n (by omega)
      rw [heq]
      have hlow : 2 ^ 52 * 2 ^ (bitLen n - 53) ≤ roundHalfEven (n / 2 ^ (bitLen n - 53)) (n % 2 ^ (bitLen n - 53)) (2 ^ (bitLen n - 53)) * 2 ^ (bitLen n - 53) := by
        have := roundHalfEven_bounds (n / 2 ^ (bitLen n - 53)) (n % 2 ^ (bitLen n - 53)) (2 ^ (bitLen n - 53))
        exact Nat.mul_le_mul_right _ (by omega)
      have h53 : (2 : Nat) ^ 53 ≤ 2 ^ 52 * 2 ^ (bitLen n - 53) := by
        rw [← pow_add]
        exact Nat.pow_le_pow_right (by omega) (by
          have := (f64ofNat_large n (by omega)).2.2.2
          omega)
      omega
  · have hn : ¬ n < 2 ^ 53 := by omega
    obtain ⟨heqm, hm52, hm53, hblm⟩ := f64ofNat_large m (by omega)
    obtain ⟨heqn, hn52, hn53, hbln⟩ := f64ofNat_large n (by omega)
    rw [heqm, heqn]
    have hmono : bitLen m ≤ bitLen n := bitLen_mono m n (by omega) h
    by_cases hlt : bitLen m < bitLen n
    · -- different binades: the upper bound of the smaller is below the
      -- lower bound of the larger
      have hup : roundHalfEven (m / 2 ^ (bitLen m - 53)) (m % 2 ^ (bitLen m - 53)) (2 ^ (bitLen m - 53)) * 2 ^ (bitLen m - 53) ≤ 2 ^ 53 * 2 ^ (bitLen m - 53) := by
        have := roundHalfEven_bounds (m / 2 ^ (bitLen m - 53)) (m % 2 ^ (bitLen m - 53)) (2 ^ (bitLen m - 53))
        exact Nat.mul_le_mul_right _ (by omega)
      have hlo : 2 ^ 52 * 2 ^ (bitLen n - 53) ≤ roundHalfEven (n / 2 ^ (bitLen n - 53)) (n % 2 ^ (bitLen n - 53)) (2 ^ (bitLen n - 53)) * 2 ^ (bitLen n - 53) := by
        have := roundHalfEven_bounds (n / 2 ^ (bitLen n - 53)) (n % 2 ^ (bitLen n - 53)) (2 ^ (bitLen n - 53))
        exact Nat.mul_le_mul_right _ (by omega)
      have hcmp : (2 : Nat) ^ 53 * 2 ^ (bitLen m - 53) ≤ 2 ^ 52 * 2 ^ (bitLen n - 53) := by
        rw [← pow_add, ← pow_add]
        exact Nat.pow_le_pow_right (by omega) (by omega)
      omega
    · -- same binade
      have hble : bitLen n = bitLen m := by omega
      rw [hble] at heqn hn52 hn53
      rw [hble]
      have hdle : m / 2 ^ (bitLen m - 53) ≤ n / 2 ^ (bitLen m - 53) := Nat.div_le_div_right h
      by_cases hqe : m / 2 ^ (bitLen m - 53) = n / 2 ^ (bitLen m - 53)
      · -- same quotient: remainders ordered
        have hrle : m % 2 ^ (bitLen m - 53) ≤ n % 2 ^ (bitLen m - 53) := by
          have h1 := Nat.div_add_mod m (2 ^ (bitLen m - 53))
          have h2 := Nat.div_add_mod n (2 ^ (bitLen m - 53))
          rw [hqe] at h1
          omega
        rw [hqe]
        exact Nat.mul_le_mul_right _ (roundHalfEven_mono _ _ _ _ hrle)
      · -- strictly smaller quotient: round up still at most the next one
        have hq : m / 2 ^ (bitLen m - 53) + 1 ≤ n / 2 ^ (bitLen m - 53) := by omega
        have h1 := roundHalfEven_bounds (m / 2 ^ (bitLen m - 53)) (m % 2 ^ (bitLen m - 53)) (2 ^ (bitLen m - 53))
        have h2 := roundHalfEven_bounds (n / 2 ^ (bitLen m - 53)) (n % 2 ^ (bitLen m - 53)) (2 ^ (bitLen m - 53))
        exact Nat.mul_le_mul_right _ (by omega)

/-- Ceiling step of goCeil on a small quotient: one. -/
theorem goCeil_small (m' T : Nat) (h1 : 1 ≤ m') (h2 : m' ≤ 2 ^ T) :
    (m' + 2 ^ T - 1) / 2 ^ T = 1 := by
  have hp : (0 : Nat) < 2 ^ T := pow_pos (by omega) _
  exact div_eq_one_of_between _ _ hp (by omega) (by omega)

/-- Core bound: when y le x * 2^T lt 2^53 * y and T is at least 53, the
rounded 53-bit quotient together with its ceiling denominator gives one. -/
theorem goCeil_of_bounds (x y T : Nat) (hT : 53 ≤ T) (hy : 0 < y)
    (hlo : y ≤ x * 2 ^ T) (hhi : x * 2 ^ T < 2 ^ 53 * y) :
    (roundHalfEven (x * 2 ^ T / y) (x * 2 ^ T % y) y + 2 ^ T - 1) / 2 ^ T = 1 := by
  have hm1 : 1 ≤ x * 2 ^ T / y := (Nat.one_le_div_iff hy).mpr hlo
  have hm2 : x * 2 ^ T / y < 2 ^ 53 := (Nat.div_lt_iff_lt_mul hy).mpr (by omega)
  have hb := roundHalfEven_bounds (x * 2 ^ T / y) (x * 2 ^ T % y) y
  have hpow : (2 : Nat) ^ 53 ≤ 2 ^ T := Nat.pow_le_pow_right (by omega) hT
  exact goCeil_small _ _ (by omega) (by omega)

/-- Division of a float64 value by itself: exactly one (significand 2^52,
exponent -52). -/
theorem rdiv_self (x : Nat) (hx : 1 ≤ x) : rdiv x x = (2 ^ 52, -52) := by
  simp only [rdiv]
  rw [if_neg (by omega)]
  rw [if_pos le_rfl]
  simp only [Int.sub_self]
  norm_num
  have ht : Int.toNat 52 = 52 := rfl
  rw [ht]
  have hdiv : x * 2 ^ 52 / x = 2 ^ 52 := Nat.mul_div_cancel_left _ (by omega)
  rw [hdiv]
  unfold roundHalfEven
  have h1 : ¬ x < 2 * 0 := by omega
  have h2 : 2 * 0 < x := by omega
  simp [h1, h2]

/-- Key float64 fact: for integral float64 operands 1 le x le y, the
rounded quotient x / y lies in (0, 1], so its ceiling is one. -/
theorem goCeil_rdiv_eq_one (x y : Nat) (hx : 1 ≤ x) (hxy : x ≤ y) :
    goCeil (rdiv x y) = 1 := by
  by_cases hxeq : x = y
  · subst hxeq
    rw [rdiv_self x hx]
    decide
  · have hy : 1 ≤ y := le_trans hx hxy
    have hlt : x < y := by omega
    obtain ⟨hxl, hxu⟩ := bitLen_bracket x hx
    obtain ⟨hyl, hyu⟩ := bitLen_bracket y hy
    have hblx := bitLen_pos x hx
    have hbly := bitLen_pos y hy
    have hblm := bitLen_mono x y hx hxy
    have hp : ∀ k : Nat, (0 : Nat) < 2 ^ k := fun k => pow_pos (by omega) k
    simp only [rdiv]
    rw [if_neg (by omega)]
    by_cases htest : y * 2 ^ (bitLen x - 1) ≤ x * 2 ^ (bitLen y - 1)
    · -- quotient at least 2^(la - lb): la lt lb here since x lt y
      have hlblt : bitLen x < bitLen y := by
        by_contra hc
        have hbe : bitLen y = bitLen x := by omega
        rw [hbe] at htest
        have := Nat.le_of_mul_le_mul_right htest (hp (bitLen x - 1))
        omega
      rw [if_pos htest]
      have hT : (52 - ((bitLen x - 1 : Nat) - (bitLen y - 1 : Nat) : Int)).toNat
          = 52 + (bitLen y - 1) - (bitLen x - 1) := by omega
      rw [if_pos (by omega : (0 : Int) ≤ 52 - ((bitLen x - 1 : Nat) - (bitLen y - 1 : Nat) : Int))]
      rw [if_pos (by omega : (0 : Int) ≤ 52 - ((bitLen x - 1 : Nat) - (bitLen y - 1 : Nat) : Int))]
      rw [hT]
      simp only [goCeil]
      rw [if_neg (by omega : ¬ (0 : Int) ≤ ((bitLen x - 1 : Nat) - (bitLen y - 1 : Nat) : Int) - 52)]
      have hTn : (-(((bitLen x - 1 : Nat) - (bitLen y - 1 : Nat) : Int) - 52)).toNat
          = 52 + (bitLen y - 1) - (bitLen x - 1) := by omega
      rw [hTn]
      set T := 52 + (bitLen y - 1) - (bitLen x - 1) with hTdef
      have hT53 : 53 ≤ T := by omega
      apply goCeil_of_bounds x y T hT53 (by omega)
      · -- y le x * 2^T from the test
        have h1 : x * 2 ^ (bitLen y - 1) ≤ x * 2 ^ T * 2 ^ (bitLen x - 1) := by
          rw [Nat.mul_assoc, ← pow_add]
          exact Nat.mul_le_mul_left x (Nat.pow_le_pow_right (by omega) (by omega))
        have h2 : y * 2 ^ (bitLen x - 1) ≤ x * 2 ^ T * 2 ^ (bitLen x - 1) := le_trans htest h1
        exact Nat.le_of_mul_le_mul_right h2 (hp _)
      · -- x * 2^T lt 2^53 * y from the upper bracket of x
        have h1 : x * 2 ^ T < 2 ^ bitLen x * 2 ^ T :=
          (Nat.mul_lt_mul_right (hp _)).mpr hxu
        have hexp : bitLen x + T = 53 + (bitLen y - 1) := by omega
        have h2 : (2 : Nat) ^ bitLen x * 2 ^ T = 2 ^ 53 * 2 ^ (bitLen y - 1) := by
          rw [← pow_add, ← pow_add, hexp]
        have h3 : (2 : Nat) ^ 53 * 2 ^ (bitLen y - 1) ≤ 2 ^ 53 * y :=
          Nat.mul_le_mul_left _ hyl
        omega
    · -- quotient below 2^(la - lb)
      rw [if_neg htest]
      push_neg at htest
      have hT : (52 - (((bitLen x - 1 : Nat) - (bitLen y - 1 : Nat) : Int) - 1)).toNat
          = 53 + (bitLen y - 1) - (bitLen x - 1) := by omega
      rw [if_pos (by omega : (0 : Int) ≤ 52 - (((bitLen x - 1 : Nat) - (bitLen y - 1 : Nat) : Int) - 1))]
      rw [if_pos (by omega : (0 : Int) ≤ 52 - (((bitLen x - 1 : Nat) - (bitLen y - 1 : Nat) : Int) - 1))]
      rw [hT]
      simp only [goCeil]
      rw [if_neg (by omega : ¬ (0 : Int) ≤ (((bitLen x - 1 : Nat) - (bitLen y - 1 : Nat) : Int) - 1) - 52)]
      have hTn : (-((((bitLen x - 1 : Nat) - (bitLen y - 1 : Nat) : Int) - 1) - 52)).toNat
          = 53 + (bitLen y - 1) - (bitLen x - 1) := by omega
      rw [hTn]
      set T := 53 + (bitLen y - 1) - (bitLen x - 1) with hTdef
      have hT53 : 53 ≤ T := by omega
      apply goCeil_of_bounds x y T hT53 (by omega)
      · -- y lt 2^(lb+1) le x * 2^T
        have h1 : (2 : Nat) ^ bitLen y ≤ 2 ^ (bitLen x - 1) * 2 ^ T := by
          rw [← pow_add]
          exact Nat.pow_le_pow_right (by omega) (by omega)
        have h2 : (2 : Nat) ^ (bitLen x - 1) * 2 ^ T ≤ x * 2 ^ T :=
          Nat.mul_le_mul_right _ hxl
        omega
      · -- strict upper bound from the failed test
        have h1 : x * 2 ^ (bitLen y - 1) * 2 ^ 53 < y * 2 ^ (bitLen x - 1) * 2 ^ 53 :=
          (Nat.mul_lt_mul_right (hp _)).mpr htest
        have hexp : T + (bitLen x - 1) = (bitLen y - 1) + 53 := by omega
        have h2 : x * 2 ^ T * 2 ^ (bitLen x - 1) = x * 2 ^ (bitLen y - 1) * 2 ^ 53 := by
          rw [Nat.mul_assoc, Nat.mul_assoc, ← pow_add, ← pow_add, hexp]
        have h3 : (2 : Nat) ^ 53 * y * 2 ^ (bitLen x - 1) = y * 2 ^ (bitLen x - 1) * 2 ^ 53 := by
          ring
        have h4 : x * 2 ^ T * 2 ^ (bitLen x - 1) < 2 ^ 53 * y * 2 ^ (bitLen x - 1) := by
          omega
        exact Nat.lt_of_mul_lt_mul_right h4

/-- For a positive object size not exceeding the chunk size, the float64
chunk-count computation of Object.Update yields exactly one. -/
theorem chunkCountGo_eq_one (size chunkSize : Nat) (h1 : 1 ≤ size) (h2 : size ≤ chunkSize) :
    chunkCountGo size chunkSize = 1 := by
  unfold chunkCountGo
  exact goCeil_rdiv_eq_one _ _ (f64ofNat_pos _ h1) (f64ofNat_mono _ _ h2)

/-- The upload loop of Object.Update iterates exactly the exact integer
ceiling of r / chunkSize times. -/
theorem loopItersAux_eq (c : Nat) (hc : 0 < c) :
    ∀ fuel r, r ≤ fuel → loopItersAux c fuel r = (r + c - 1) / c := by
  intro fuel
  induction fuel with
  | zero =>
    intro r hr
    have : r = 0 := by omega
    subst this
    simp [loopItersAux]
    have hz : (c - 1) / c = 0 := Nat.div_eq_of_lt (by omega)
    omega
  | succ f ih =>
    intro r hr
    by_cases h0 : r = 0
    · subst h0
      simp [loopItersAux]
      have hz : (c - 1) / c = 0 := Nat.div_eq_of_lt (by omega)
      omega
    · rw [loopItersAux, if_neg h0]
      have hrec := ih (r - min r c) (by omega)
      rw [hrec]
      by_cases hrc : r ≤ c
      · have hmin : min r c = r := by omega
        rw [hmin]
        have hz : (r - r + c - 1) / c = 0 := by
          apply Nat.div_eq_of_lt
          omega
        rw [hz]
        have := div_eq_one_of_between (r + c - 1) c hc (by omega) (by omega)
        omega
      · have hmin : min r c = c := by omega
        rw [hmin]
        have hup : r + c - 1 = (r - c + c - 1) + c := by omega
        rw [hup]
        rw [Nat.add_div_right _ hc]

/-- loopIters is the exact ceiling division. -/
theorem loopIters_eq (c r : Nat) (hc : 0 < c) : loopIters c r = (r + c - 1) / c :=
  loopItersAux_eq c hc r r le_rfl

/-- The three-attempt loop performs between 1 and 3 attempts and succeeds
exactly when some of its first attempts does. -/
theorem retry3_attempts (oracle : Nat → Option PcsError) :
    1 ≤ (retry3 oracle).2 ∧ (retry3 oracle).2 ≤ 3 := by
  unfold retry3
  cases oracle 0 <;> cases oracle 1 <;> cases oracle 2 <;> simp

/-- When every attempt fails, the three-attempt loop returns the error of
the third attempt after exactly 3 attempts. -/
theorem retry3_exhausted (oracle : Nat → Option PcsError) (e2 : PcsError)
    (h0 : (oracle 0).isSome = true) (h1 : (oracle 1).isSome = true)
    (h2 : oracle 2 = some e2) :
    retry3 oracle = (some e2, 3) := by
  unfold retry3
  obtain ⟨a, ha⟩ := Option.isSome_iff_exists.mp h0
  obtain ⟨b, hb⟩ := Option.isSome_iff_exists.mp h1
  rw [ha, hb, h2]

/-- The merge loop never performs more than i + fuel attempts. -/
theorem createSuperFileLoopAux_attempts (oracle : Nat → Option PcsError) :
    ∀ fuel i, (createSuperFileLoopAux oracle fuel i).2 ≤ i + fuel := by
  intro fuel
  induction fuel with
  | zero =>
    intro i
    unfold createSuperFileLoopAux
    cases oracle i <;> simp
  | succ f ih =>
    intro i
    unfold createSuperFileLoopAux
    cases oracle i with
    | none => simp
    | some e =>
      simp only
      split
      · have := ih (i + 1)
        omega
      · simp

/-- A merge loop whose attempts always fail with the remote code 31363
(chunk state expired) runs all 3 attempts and returns that error. -/
theorem createSuperFileLoop_expired (oracle : Nat → Option PcsError) (e : PcsError)
    (he : ∀ i, oracle i = some e)
    (ht : e.errType = .remoteErr) (hc : e.remoteErrCode = 31363) :
    createSuperFileLoop oracle = (some e, 3) := by
  have hre : shouldReCreateSuperFile e = true := by
    unfold shouldReCreateSuperFile
    rw [ht, hc]
    simp
  unfold createSuperFileLoop createSuperFileLoopAux
  rw [he 1]
  simp only [hre, if_true]
  unfold createSuperFileLoopAux
  rw [he 2]
  simp only [hre, if_true]
  unfold createSuperFileLoopAux
  rw [he 3]

/-- A merge loop whose first attempt fails with a 413 Request Entity Too
Large network error stops after exactly one attempt with that error. -/
theorem createSuperFileLoop_payload (oracle : Nat → Option PcsError) (e : PcsError)
    (he : oracle 1 = some e) (ht : e.errType = .netErr)
    (hm : containsSub e.errMsg payloadTooLargeChars = true) :
    createSuperFileLoop oracle = (some e, 1) := by
  have hre : shouldReCreateSuperFile e = false := by
    unfold shouldReCreateSuperFile
    rw [ht, hm]
    simp
  unfold createSuperFileLoop createSuperFileLoopAux
  rw [he]
  simp [hre]

/-- A chunk uploader whose attempts are all retryable runs through its full
budget: fuel further attempts starting at index i, all retryable, end in
cancelExhausted with the error of the last attempt. -/
theorem chunkLoopAux_retryable (oracle : Nat → ChunkAttempt) :
    ∀ fuel i lastE, (∀ j, j < fuel → RetryableAttempt (oracle (i + j))) →
      chunkLoopAux oracle fuel i .retry lastE
        = (.cancelExhausted (if fuel = 0 then lastE else (oracle (i + fuel - 1)).pcsErr), i + fuel) := by
  intro fuel
  induction fuel with
  | zero =>
    intro i lastE _
    simp [chunkLoopAux]
  | succ f ih =>
    intro i lastE h
    have h0 := h 0 (by omega)
    rw [Nat.add_zero] at h0
    obtain ⟨hsome, hstat⟩ := h0
    obtain ⟨e, he⟩ := Option.isSome_iff_exists.mp hsome
    have hst1 : statusAfter .retry (oracle i) = .retry := by
      unfold statusAfter
      cases hrs : (oracle i).respStatus with
      | none => rfl
      | some code => simp [hstat code hrs]
    simp only [chunkLoopAux, hst1, he]
    rw [if_neg (by simp)]
    have hrec := ih (i + 1) (some e) (fun j hj => by
      have := h (j + 1) (by omega)
      rwa [show i + (j + 1) = i + 1 + j by omega] at this)
    rw [hrec]
    by_cases hf : f = 0
    · subst hf
      simp [he]
    · rw [if_neg hf, if_neg (by omega)]
      have : i + 1 + f - 1 = i + (f + 1) - 1 := by omega
      rw [this]
      have : i + 1 + f = i + (f + 1) := by omega
      rw [this]

/-- The cancel closure folds to the last non-nil error of the reported
sequence (generalized over the initial accumulator). -/
theorem cancelFold_go (l : List (Option PcsError)) :
    ∀ acc, l.foldl (fun acc e => match e with | some x => some x | none => acc) acc
      = ((l.filterMap id).getLast?).elim acc some := by
  induction l with
  | nil => intro acc; rfl
  | cons e t ih =>
    intro acc
    cases e with
    | none =>
      simp only [List.foldl_cons, List.filterMap_cons]
      exact ih acc
    | some x =>
      simp only [List.foldl_cons, List.filterMap_cons]
      rw [ih (some x)]
      cases hft : t.filterMap id with
      | nil => simp
      | cons y ys =>
        simp [List.getLast?_cons_cons]
        cases hgl : (y :: ys).getLast? with
        | none =>
          have hne : (y :: ys).getLast?.isSome := List.getLast?_isSome.mpr (by simp)
          simp [hgl] at hne
        | some z => rfl

/-- One fail call on a window whose cursors sit at zero keeps them at zero
(ringBuffer.next does not advance) and never sleeps. -/
theorem rcFail_no_sleep (c : RateControl) (now na : Int)
    (hf : c.failures.front = 0) (hr : c.failures.rear = 0) (hl : c.failures.length = 6) :
    (rcFail c now na).1.failures.front = 0 ∧ (rcFail c now na).1.failures.rear = 0 ∧
    (rcFail c now na).1.failures.length = 6 ∧ (rcFail c now na).2 = false := by
  unfold rcFail rbEnqueue rbNext rbLen
  rw [hf, hr, hl]
  norm_num

/-- No sequence of fail calls starting from the initial rate controller
ever sleeps, and the window stays empty. -/
theorem rcFailSeq_no_sleep_go (times : List Int) :
    ∀ c : RateControl, c.failures.front = 0 → c.failures.rear = 0 → c.failures.length = 6 →
      (rcFailSeq c times).1.failures.front = 0 ∧ (rcFailSeq c times).1.failures.rear = 0 ∧
      (rcFailSeq c times).1.failures.length = 6 ∧ (rcFailSeq c times).2 = 0 := by
  induction times with
  | nil =>
    intro c hf hr hl
    exact ⟨hf, hr, hl, rfl⟩
  | cons t ts ih =>
    intro c hf hr hl
    obtain ⟨h1, h2, h3, h4⟩ := rcFail_no_sleep c t t hf hr hl
    unfold rcFailSeq
    obtain ⟨g1, g2, g3, g4⟩ := ih (rcFail c t t).1 h1 h2 h3
    simp only [g1, g2, g3, g4, h4]
    simp

/-- C1: in the multi-chunk path of Object.Update the cancellation exit
taken right after the select does not return the slot token it consumed.
In this concrete run a chunk fails fatally (cancelling the job) and sends
its token back; the select of the orchestrator then receives that token
while allCancelCtx is already cancelled, and the post-select check does a
bare return: the run finishes with the fatal error, no goroutine is in
flight, the placeholder is done, yet two acquisitions face only one
release and the single slot of the pool is left without its availability
token, permanently lost to later uploads. -/
theorem update_slot_leak_on_cancel_exit :
    (updRun cfgLeak schedLeak).finished = some (.errRes (some (.pcs errA))) ∧
    (updRun cfgLeak schedLeak).running = [] ∧
    (updRun cfgLeak schedLeak).phDone = true ∧
    (updRun cfgLeak schedLeak).acquired = 2 ∧
    (updRun cfgLeak schedLeak).released = 1 ∧
    (updRun cfgLeak schedLeak).tokens = [false] := by
  decide

/-- C2: a chunk uploader whose attempts are all classified retryable
performs exactly 5 attempts and ends by calling cancel with the error of
the last attempt; a chunk uploader whose first attempt is classified fatal
(HTTP status 400, 401, 403 or 413) calls cancel after exactly 1 attempt
with no second attempt; and the completion of such an uploader in the
multi-chunk machine sets cancelRequested, cancelling the whole job. -/
theorem chunk_retry_bound (o1 o2 : Nat → ChunkAttempt) (cfg : UpdCfg) (s : UpdState)
    (slot idx : Nat)
    (h1 : ∀ j, j < 5 → RetryableAttempt (o1 j))
    (h2 : FatalAttempt (o2 0))
    (hfind : s.running.find? (fun p => p.2 = idx) = some (slot, idx))
    (hco : cfg.chunkOracle idx = o1) :
    (chunkLoop o1).2 = 5 ∧
    (chunkLoop o1).1 = .cancelExhausted ((o1 4).pcsErr) ∧
    isCancelResult (chunkLoop o1).1 = true ∧
    (chunkLoop o2).2 = 1 ∧
    (∃ e, (o2 0).pcsErr = some e ∧ (chunkLoop o2).1 = .cancelFatal e) ∧
    (runChunkStep cfg s idx).cancelRequested = true := by
  have hloop : chunkLoop o1 = (.cancelExhausted ((o1 4).pcsErr), 5) := by
    unfold chunkLoop
    have := chunkLoopAux_retryable o1 5 0 none (fun j hj => by
      have := h1 j hj
      rwa [Nat.zero_add])
    simpa using this
  obtain ⟨hsome2, c, hrs2, hfc2⟩ := h2
  obtain ⟨e, he⟩ := Option.isSome_iff_exists.mp hsome2
  have hst : statusAfter .retry (o2 0) = .failed := by
    unfold statusAfter
    rw [hrs2]
    simp [hfc2]
  have hfatal : chunkLoop o2 = (.cancelFatal e, 1) := by
    unfold chunkLoop chunkLoopAux
    simp only [he, hst]
    simp
  refine ⟨by rw [hloop], by rw [hloop], by rw [hloop]; rfl, by rw [hfatal], ⟨e, he, by rw [hfatal]⟩, ?_⟩
  unfold runChunkStep
  rw [hfind]
  unfold chunkDoneEff
  rw [hco, hloop]
  simp [cancelEff]

/-- Witness for C2 at a concrete retryable oracle, a concrete fatal
oracle, and a machine state holding one dispatched chunk. -/
theorem chunk_retry_bound_witness :
    (chunkLoop (fun _ => retryAttemptW)).2 = 5 ∧
    (chunkLoop (fun _ => retryAttemptW)).1 = .cancelExhausted (((fun _ => retryAttemptW) 4).pcsErr) ∧
    isCancelResult (chunkLoop (fun _ => retryAttemptW)).1 = true ∧
    (chunkLoop (fun _ => fatalAttemptW)).2 = 1 ∧
    (∃ e, ((fun _ => fatalAttemptW) 0).pcsErr = some e ∧ (chunkLoop (fun _ => fatalAttemptW)).1 = .cancelFatal e) ∧
    (runChunkStep cfgRetryW sRunningW 0).cancelRequested = true := by
  exact chunk_retry_bound (fun _ => retryAttemptW) (fun _ => fatalAttemptW) cfgRetryW sRunningW 0 0
    (fun j _ => ⟨rfl, fun c hc => by
      injection hc with hc
      subst hc
      decide⟩)
    ⟨rfl, 400, rfl, by decide⟩
    (by decide)
    rfl

/-- C3: counterexample to first-writer-wins.  Two distinct terminal errors
reported in order to the cancel closure of Object.Update leave the second
one in returnErr: the error returned to the caller is the last reported,
not the first. -/
theorem cancel_first_writer_counterexample :
    cancelFold [some errA, some errB] = some errB ∧ errA ≠ errB := by
  decide

/-- C3 amended: when several failing chunk uploaders report terminal
errors to the cancel closure of Object.Update, the stored result is the
LAST non-nil error reported (each later non-nil error overwrites the
stored value, and nil reports, such as the deferred cancel, leave it
unchanged). -/
theorem cancel_last_non_nil_wins (calls : List (Option PcsError)) :
    cancelFold calls = (calls.filterMap id).getLast? := by
  unfold cancelFold
  rw [cancelFold_go calls none]
  cases (calls.filterMap id).getLast? <;> rfl

/-- C4: the chunk count of Object.Update is not the exact integer ceiling
of size over chunk size for every size: at size 2^53 + 1 with chunk size 1
the float64 computation int(math.Ceil(float64(size)/float64(chunkSize)))
yields 2^53, while the upload loop performs 2^53 + 1 iterations (the exact
ceiling), so the checksum slice is allocated one entry shorter than the
chunk indexes the loop writes (an out-of-range write in Go).  On ordinary
sizes (the 12 MB object with 5 MB chunks of the end-to-end scenario) the
float64 computation does agree with the exact ceiling. -/
theorem chunk_count_float_mismatch :
    chunkCountGo (2 ^ 53 + 1) 1 = 2 ^ 53 ∧
    loopIters 1 (2 ^ 53 + 1) = 2 ^ 53 + 1 ∧
    chunkCountGo 12000000 5000000 = 3 ∧
    loopIters 5000000 12000000 = 3 := by
  refine ⟨by decide, ?_, by decide, by decide⟩
  rw [loopIters_eq 1 (2 ^ 53 + 1) (by decide), Nat.div_one]
  omega

/-- C5: the merge (create-super-file) loop of Object.Update retries a call
failing with remote code 31363 (chunk state expired), performing at most 3
attempts in total (exactly 3 when every attempt so fails), while a call
failing with a 413 Request Entity Too Large network error is not retried:
the loop returns that error after its first attempt. -/
theorem merge_retry_classification (o1 o2 : Nat → Option PcsError) (e1 e2 : PcsError)
    (h1 : ∀ i, o1 i = some e1) (ht1 : e1.errType = .remoteErr) (hc1 : e1.remoteErrCode = 31363)
    (h2 : o2 1 = some e2) (ht2 : e2.errType = .netErr)
    (hm2 : containsSub e2.errMsg payloadTooLargeChars = true) :
    createSuperFileLoop o1 = (some e1, 3) ∧
    createSuperFileLoop o2 = (some e2, 1) ∧
    (∀ oracle : Nat → Option PcsError, (createSuperFileLoop oracle).2 ≤ 3) := by
  refine ⟨createSuperFileLoop_expired o1 e1 h1 ht1 hc1,
    createSuperFileLoop_payload o2 e2 h2 ht2 hm2, ?_⟩
  intro oracle
  have := createSuperFileLoopAux_attempts oracle 2 1
  unfold createSuperFileLoop
  omega

/-- Witness for C5 at concrete oracles: one always failing with remote
code 31363, one failing with the 413 network error. -/
theorem merge_retry_classification_witness :
    createSuperFileLoop (fun _ => some e31363W) = (some e31363W, 3) ∧
    createSuperFileLoop (fun _ => some e413W) = (some e413W, 1) ∧
    (∀ oracle : Nat → Option PcsError, (createSuperFileLoop oracle).2 ≤ 3) := by
  exact merge_retry_classification (fun _ => some e31363W) (fun _ => some e413W) e31363W e413W
    (fun _ => rfl) rfl rfl rfl rfl (by decide)

/-- C6: the rate controller never imposes the cooldown.  Five fail calls
with identical timestamps (a span of zero, within six intervals) leave the
failure window empty and never sleep; in fact no sequence of fail calls
ever sleeps, because ringBuffer.next does not advance the rear cursor, so
the window length is always zero and the five-failure threshold is never
reached; consequently no entry is ever evicted either, and wait never
blocks beyond its ticker. -/
theorem rate_control_never_cools_down :
    (rcFailSeq (rcInit 1) [0, 0, 0, 0, 0]).2 = 0 ∧
    rbLen (rcFailSeq (rcInit 1) [0, 0, 0, 0, 0]).1.failures = 0 ∧
    (∀ (interval : Int) (times : List Int), (rcFailSeq (rcInit interval) times).2 = 0) := by
  refine ⟨by decide, by decide, ?_⟩
  intro interval times
  exact (rcFailSeq_no_sleep_go times (rcInit interval) rfl rfl rfl).2.2.2

/-- C7: counterexample to the claim that the placeholder creation step
completes before any chunk upload is dispatched and that an exhausted
placeholder fails the job without chunk work having started.  In this run
chunk 0 is dispatched and even completes before the placeholder goroutine
runs at all; the placeholder then exhausts its 3 attempts and the job
fails with the placeholder error, chunk work having already happened. -/
theorem placeholder_order_counterexample :
    phBeforeDispatch (updRun cfgPh schedPh).events = false ∧
    (updRun cfgPh schedPh).events = [.chunkDispatched 0, .chunkDone 0, .phFailed] ∧
    (updRun cfgPh schedPh).finished = some (.errRes (some (.pcs errPh))) := by
  decide

/-- C7 amended: the placeholder creation step is launched concurrently
before the chunk loop and does not block chunk dispatch (a chunk upload
can be dispatched, and even complete, before the placeholder step has
run); when its 3 attempts are all exhausted, the placeholder goroutine
reports its last error to cancel, which requests cancellation of the
whole job with that error. -/
theorem placeholder_concurrent_amended (oracle : Nat → Option PcsError) (e2 : PcsError)
    (cfg : UpdCfg) (s : UpdState)
    (h0 : (oracle 0).isSome = true) (h1 : (oracle 1).isSome = true) (h2 : oracle 2 = some e2)
    (hcfg : cfg.phOracle = oracle) (hph : s.phDone = false) :
    placeholderGoroutine oracle = (.cancelWith e2, 3) ∧
    (phStep cfg s).cancelRequested = true ∧
    (phStep cfg s).returnErr = some (.pcs e2) ∧
    phBeforeDispatch (updRun cfgPh schedPh).events = false := by
  have hret := retry3_exhausted oracle e2 h0 h1 h2
  have hpg : placeholderGoroutine oracle = (.cancelWith e2, 3) := by
    unfold placeholderGoroutine
    rw [hret]
  have hps : phStep cfg s
      = { cancelEff s (some (.pcs e2)) with phDone := true, events := s.events ++ [.phFailed] } := by
    unfold phStep
    rw [hph, hcfg, hpg]
    simp
  refine ⟨hpg, ?_, ?_, by decide⟩
  · rw [hps]
    simp [cancelEff]
  · rw [hps]
    simp [cancelEff]

/-- Witness for C7 amended: the always-failing placeholder oracle of the
cfgPh run, applied to the initial machine state. -/
theorem placeholder_concurrent_amended_witness :
    placeholderGoroutine (fun _ => some errPh) = (.cancelWith errPh, 3) ∧
    (phStep cfgPh (updInit cfgPh)).cancelRequested = true ∧
    (phStep cfgPh (updInit cfgPh)).returnErr = some (.pcs errPh) ∧
    phBeforeDispatch (updRun cfgPh schedPh).events = false := by
  exact placeholder_concurrent_amended (fun _ => some errPh) errPh cfgPh (updInit cfgPh)
    rfl rfl rfl rfl (by decide)

/-- C8: an upload of a zero-size object takes the placeholder-only path:
at most 3 attempts of the empty-file upload, no buffer slot touched, no
chunk upload, no merge call and no whole-file call, and on success the
recorded object size is 0. -/
theorem zero_size_path (chunkSize : Nat) (oracle : Nat → Option PcsError) :
    updatePathKind 0 chunkSize = .zeroSize ∧
    1 ≤ (updateZeroSize oracle).attempts ∧
    (updateZeroSize oracle).attempts ≤ 3 ∧
    (updateZeroSize oracle).ops.all (fun op => op == Op.emptyFileOp) = true ∧
    (updateZeroSize oracle).acquired = 0 ∧
    (updateZeroSize oracle).released = 0 ∧
    (updateZeroSize oracle).recordedSize
      = (if (updateZeroSize oracle).result = none then some 0 else none) := by
  have hr := retry3_attempts oracle
  refine ⟨by simp [updatePathKind], ?_, ?_, ?_, ?_, ?_, ?_⟩ <;>
    · unfold updateZeroSize
      rcases hr3 : retry3 oracle with ⟨res, k⟩
      rw [hr3] at hr
      cases res <;> simp_all [List.all_eq_true]

/-- C9: an upload with 0 lt size le chunkSize takes the single-request
path (the float64 chunk count is exactly 1, proved, not assumed): the
placeholder step and the merge step are never invoked, one buffer slot is
acquired and released exactly once, the direct whole-object upload is
attempted at most 3 times, and on success the recorded size is the object
size. -/
theorem single_chunk_path (size chunkSize : Nat) (oracle : Nat → Option PcsError)
    (fillFails : Bool) (hs : 0 < size) (hsc : size ≤ chunkSize) :
    updatePathKind size chunkSize = .singleChunk ∧
    (updateSingleChunk false fillFails oracle size).acquired = 1 ∧
    (updateSingleChunk false fillFails oracle size).released = 1 ∧
    (updateSingleChunk false fillFails oracle size).attempts ≤ 3 ∧
    (updateSingleChunk false fillFails oracle size).ops.all (fun op => op == Op.wholeFileOp) = true ∧
    (updateSingleChunk false fillFails oracle size).recordedSize
      = (if (updateSingleChunk false fillFails oracle size).result = none then some size else none) := by
  have hcc := chunkCountGo_eq_one size chunkSize hs hsc
  have hr := retry3_attempts oracle
  refine ⟨?_, ?_, ?_, ?_, ?_, ?_⟩
  · unfold updatePathKind
    rw [if_neg (by omega), hcc]
    simp
  all_goals
    unfold updateSingleChunk
    cases fillFails
    all_goals
      rcases hr3 : retry3 oracle with ⟨res, k⟩
      rw [hr3] at hr
      cases res <;> simp_all [List.all_eq_true]

/-- Witness for C9 at size 3, chunk size 5000000, with a first-attempt
success oracle and no fill failure. -/
theorem single_chunk_path_witness :
    updatePathKind 3 5000000 = .singleChunk ∧
    (updateSingleChunk false false (fun _ => none) 3).acquired = 1 ∧
    (updateSingleChunk false false (fun _ => none) 3).released = 1 ∧
    (updateSingleChunk false false (fun _ => none) 3).attempts ≤ 3 ∧
    (updateSingleChunk false false (fun _ => none) 3).ops.all (fun op => op == Op.wholeFileOp) = true ∧
    (updateSingleChunk false false (fun _ => none) 3).recordedSize
      = (if (updateSingleChunk false false (fun _ => none) 3).result = none then some 3 else none) := by
  exact single_chunk_path 3 5000000 (fun _ => none) false (by decide) (by decide)

/-- C10: the global buffer pool is allocated only when the pool slice is
empty: the first NewFs call (with a positive thread count) creates
maxUploadThreadCount slots, each with a buffer of that instance
uploadChunkSize bytes and one availability token, and any later NewFs
call, whatever its configuration, leaves the pool unchanged. -/
theorem pool_allocated_once (opt1 opt2 : FsOptions) (h : 0 < opt1.maxUploadThreadCount) :
    (newFsPool [] opt1).length = opt1.maxUploadThreadCount ∧
    (newFsPool [] opt1).all (fun b => b == newBufBytes opt1) = true ∧
    newFsPool (newFsPool [] opt1) opt2 = newFsPool [] opt1 := by
  have h1 : newFsPool [] opt1 = newBufBytesSlice opt1 opt1.maxUploadThreadCount := by
    unfold newFsPool
    simp
  refine ⟨?_, ?_, ?_⟩
  · rw [h1]
    unfold newBufBytesSlice
    simp
  · rw [h1]
    unfold newBufBytesSlice
    simp [List.all_eq_true]
  · rw [h1]
    unfold newFsPool newBufBytesSlice
    rw [if_neg (by simp; omega)]

/-- Witness for C10: a first Fs with 3 threads and 10 MB chunks, a second
Fs with a different configuration. -/
theorem pool_allocated_once_witness :
    (newFsPool [] ⟨3, 10000000⟩).length = (⟨3, 10000000⟩ : FsOptions).maxUploadThreadCount ∧
    (newFsPool [] ⟨3, 10000000⟩).all (fun b => b == newBufBytes ⟨3, 10000000⟩) = true ∧
    newFsPool (newFsPool [] ⟨3, 10000000⟩) ⟨5, 1⟩ = newFsPool [] ⟨3, 10000000⟩ := by
  exact pool_allocated_once ⟨3, 10000000⟩ ⟨5, 1⟩ (by decide)
